import Mathlib

/-!
Verification of the SPARC GUI project-management logic
(`src/gui/streamlit/app.py`).

The Python module is UI glue around a small amount of observable logic:

* `load_project` — validates a project directory (existence, non-empty
  `architecture/` subdirectory), optionally loads `guidance.toml`,
  attaches a git repository, and records the project path in the
  session state, returning a boolean;
* `show_components` — reads `architecture/Architecture.md` and extracts
  component names with `re.findall(r'## Component: (\w+)', content)`;
* the `main` page's new-project form handler — creates a directory,
  optionally initializes git, and saves a record to the project store.

We embed this logic shallowly.  Calls into external collaborators
(the file system, `toml.load`, `git.Repo`, the project database) become
fields of an environment record describing what the call would have
returned or raised; Python exceptions become explicit outcome
constructors, and the `try/except` structure of the source becomes
case analysis on those constructors.
-/

namespace SparcGui

/-- Messages surfaced to the user via `st.error` / `st.warning` /
`st.info` / `st.success`. -/
inductive Msg where
  | error (s : String)
  | warning (s : String)
  | info (s : String)
  | success (s : String)
deriving DecidableEq, Repr

/-- Component status.  The spec's data model has `Implemented | Pending`;
the scanner in the source only ever produces `Implemented`
(`st.text("Status: Implemented")`). -/
inductive Status where
  | implemented
  | pending
deriving DecidableEq, Repr

/-- An architecture component as rendered by `show_components`. -/
structure Component where
  name : String
  status : Status
deriving DecidableEq, Repr

/-- ASCII word characters, the `\w` class of the regex
`## Component: (\w+)` (letters, digits, underscore). -/
def wordChar (c : Char) : Bool :=
  c.isAlphanum || c = '_'

/-- The literal part of the pattern `## Component: (\w+)`. -/
def pat : List Char := "## Component: ".toList

/-- Does the list start with a word character?  The regex requires at
least one `\w` after the literal prefix. -/
def wordHead : List Char → Bool
  | [] => false
  | c :: _ => wordChar c

/-- Fuel-indexed scanner implementing the leftmost, non-overlapping
match semantics of `re.findall(r'## Component: (\w+)', content)`:
at each position, if the literal `"## Component: "` followed by at
least one word character matches, the maximal word run is captured and
scanning resumes after the whole match; otherwise scanning advances by
one character.  Each step consumes one unit of fuel and at least one
character, so fuel equal to the length of the input never runs out. -/
def scanGo : Nat → List Char → List (List Char)
  | 0, _ => []
  | _ + 1, [] => []
  | fuel + 1, c :: cs =>
      if pat.isPrefixOf (c :: cs) && wordHead ((c :: cs).drop pat.length) then
        let name := ((c :: cs).drop pat.length).takeWhile wordChar
        name :: scanGo fuel (((c :: cs).drop pat.length).drop name.length)
      else
        scanGo fuel cs

/-- `re.findall(r'## Component: (\w+)', content)`: the captured groups,
in document order, duplicates preserved. -/
def scanComponents (content : List Char) : List (List Char) :=
  scanGo content.length content

/-- The component extraction of `show_components`: each captured name
becomes a component rendered with `Status: Implemented`. -/
def parse_components (content : List Char) : List Component :=
  (scanComponents content).map fun n => { name := String.mk n, status := .implemented }

/-! ## The session model: `load_project` and `show_components` -/

/-- Opaque handle standing for a `git.Repo` object. -/
structure Repo where
  id : Nat
deriving DecidableEq, Repr

/-- Opaque value standing for the dictionary returned by `toml.load`. -/
structure Guidance where
  entries : List (String × String)
deriving DecidableEq, Repr

/-- What the call `git.Repo(path)` does for the given path: returns a
repository object, raises `git.InvalidGitRepositoryError` (no
version-control metadata), or raises some other exception (corrupt
metadata, permission denial, ...). -/
inductive GitOutcome where
  | repo (r : Repo)
  | invalidGitRepository
  | otherError (msg : String)
deriving DecidableEq, Repr

/-- What `toml.load` does on the guidance file: returns a parsed
mapping or raises (malformed TOML, read error, ...). -/
inductive TomlOutcome where
  | ok (g : Guidance)
  | raise (msg : String)
deriving DecidableEq, Repr

/-- The file-system / external environment seen by `load_project` and
`show_components` at one project path: the results of the external
calls the source makes. -/
structure ProjectFs where
  /-- `Path(path).exists()` -/
  pathExists : Bool
  /-- `(project_dir / "architecture").exists()` -/
  archDirExists : Bool
  /-- `any(arch_dir.iterdir())` — architecture/ has at least one entry -/
  archHasEntries : Bool
  /-- `guidance.toml`: `none` if absent, otherwise what `toml.load` does -/
  guidanceFile : Option TomlOutcome
  /-- what `git.Repo(path)` does -/
  gitOpen : GitOutcome
  /-- content of `architecture/Architecture.md`, `none` if the file is absent -/
  archMd : Option (List Char)
deriving DecidableEq, Repr

/-- `st.session_state` as touched by this module. -/
structure SessionState where
  project_path : Option String
  components : List Component
  git_repo : Option Repo
  guidance : Option Guidance
  selected_component : Option String
deriving DecidableEq, Repr

/-- `init_session_state()` applied to a fresh session. -/
def initState : SessionState :=
  { project_path := none, components := [], git_repo := none
  , guidance := none, selected_component := none }

/-- `load_project(path)`.  The whole body runs inside
`try ... except Exception`: an exception raised by `toml.load` or by
`git.Repo` (other than `git.InvalidGitRepositoryError`, which has its
own handler producing a warning) is caught by the outer handler, which
emits `st.error(f"Failed to load project: ...")` and returns `False`.
Returns the boolean result, the updated session state, and the
messages emitted. -/
def load_project (fs : ProjectFs) (path : String) (st : SessionState) :
    Bool × SessionState × List Msg :=
  if !fs.pathExists then
    (false, st, [.error ("Project directory does not exist: " ++ path)])
  else if !fs.archDirExists || !fs.archHasEntries then
    (false, st, [.error "No architecture files found. Please initialize project first."])
  else
    match fs.guidanceFile with
    | some (.raise msg) =>
        (false, st, [.error ("Failed to load project: " ++ msg)])
    | some (.ok g) =>
        loadGit fs path { st with guidance := some g }
    | none =>
        loadGit fs path st
where
  /-- The tail of `load_project` after the guidance block: the git
  setup and the final assignment of `project_path`. -/
  loadGit (fs : ProjectFs) (path : String) (st : SessionState) :
      Bool × SessionState × List Msg :=
    match fs.gitOpen with
    | .repo r =>
        (true, { st with git_repo := some r, project_path := some path }, [])
    | .invalidGitRepository =>
        (true, { st with project_path := some path },
         [.warning "Git repository not initialized"])
    | .otherError msg =>
        (false, st, [.error ("Failed to load project: " ++ msg)])

/-- The observable outcome of `show_components`: the component list
rendered as expanders (each with `Status: Implemented`), the
`st.info` branch for a document with no matching headings, or the
`st.error` branch when `Architecture.md` is absent. -/
inductive ComponentsView where
  | components (cs : List Component)
  | noComponents
  | documentNotFound
deriving DecidableEq, Repr

/-- `show_components()` reduced to its observable outcome. -/
def show_components (fs : ProjectFs) : ComponentsView :=
  match fs.archMd with
  | some content =>
      let cs := parse_components content
      if cs.isEmpty then .noComponents else .components cs
  | none => .documentNotFound

/-! ## The new-project form handler (`main`, Project page, "New Project" tab) -/

/-- A durable project record (`name, path, description, metadata`). -/
structure ProjectRecord where
  name : String
  path : String
  description : String
  metadata : List (String × String)
deriving DecidableEq, Repr

/-- Environment for the form handler: the results of the external calls
`project_dir.mkdir(...)`, `init_git_repo(path)` and
`save_project(...)` (`Except.error` models a raised exception;
`save_project` also returns a boolean). -/
structure CreateEnv where
  mkdirResult : Except String Unit
  gitInitResult : Except String Repo
  saveResult : Except String Bool
deriving Repr

/-- State mutations performed by one submission of the form. -/
structure CreateEffects where
  dirCreated : Bool
  gitInitialized : Bool
  savedRecord : Option ProjectRecord
deriving DecidableEq, Repr

/-- No mutation at all. -/
def CreateEffects.none : CreateEffects :=
  { dirCreated := false, gitInitialized := false, savedRecord := Option.none }

/-- The body of `if st.form_submit_button("Create Project")` in `main`:
`if name and path` (Python truthiness: both strings non-empty) guards
the whole creation sequence, whose steps run inside
`try ... except Exception`; the `else` branch only emits
`st.error("Please provide project name and path")`. -/
def create_project (env : CreateEnv) (name description path : String)
    (init_git create_arch : Bool) : CreateEffects × List Msg :=
  if name ≠ "" ∧ path ≠ "" then
    match env.mkdirResult with
    | .error e =>
        (CreateEffects.none, [.error ("Failed to create project: " ++ e)])
    | .ok _ =>
        match (if init_git then env.gitInitResult.map fun _ => true else .ok false) with
        | .error e =>
            ({ dirCreated := true, gitInitialized := false, savedRecord := Option.none },
             [.error ("Failed to create project: " ++ e)])
        | .ok gitDone =>
            match env.saveResult with
            | .error e =>
                ({ dirCreated := true, gitInitialized := gitDone, savedRecord := Option.none },
                 [.error ("Failed to create project: " ++ e)])
            | .ok true =>
                ({ dirCreated := true, gitInitialized := gitDone
                 , savedRecord := some { name, path, description, metadata := [] } },
                 .success "Project created successfully!" ::
                   if create_arch then [.info "Generating architecture files..."] else [])
            | .ok false =>
                ({ dirCreated := true, gitInitialized := gitDone, savedRecord := Option.none },
                 [])
  else
    (CreateEffects.none, [.error "Please provide project name and path"])

/-! ## The project store

The store implementation (`utils/database.py`: `init_db`, `save_project`,
`get_projects`) is imported by `main` but is not part of the source
tree; only its call sites are.  It is therefore modelled from the
specification. -/

/-- Modelled from the spec: the durable project registry behind
`save_project` / `get_projects` (`utils.database`, absent from the
source tree).  "`save(name, path, description, metadata)`":
"inserts or upserts a Project keyed by `path`"; "`list()`" "returns
all known projects". -/
abbrev ProjectStore : Type := List ProjectRecord

/-- Modelled from the spec: `save` upserts keyed by `path` — if a
record with the same path exists it is replaced ("updates replace the
stored record"), otherwise the record is appended. -/
def ProjectStore.save (s : ProjectStore) (r : ProjectRecord) : ProjectStore :=
  if s.any (fun q => q.path = r.path) then
    s.map fun q => if q.path = r.path then r else q
  else
    s ++ [r]

/-- Modelled from the spec: `list` returns all known projects. -/
def ProjectStore.list (s : ProjectStore) : List ProjectRecord := s

/-- The empty store (state after the idempotent `init_db()`). -/
def ProjectStore.empty : ProjectStore := []

/-- Store well-formedness: records are keyed by `path`, so paths are
pairwise distinct.  Holds for the empty store and is preserved by
`save`. -/
def ProjectStore.wf (s : ProjectStore) : Prop :=
  (s.map ProjectRecord.path).Nodup

instance (s : ProjectStore) : Decidable s.wf := by
  unfold ProjectStore.wf
  infer_instance

/-! ## Concrete scenarios -/

/-- The architecture document of the end-to-end scenario. -/
def content3 : List Char := "## Component: Parser\n## Component: Linker\n".toList

/-- The end-to-end scenario's environment: an existing directory whose
`architecture/` contains `Architecture.md` with two component
headings, no `guidance.toml`, and no version-control metadata. -/
def fs3 : ProjectFs :=
  { pathExists := true, archDirExists := true, archHasEntries := true
  , guidanceFile := none, gitOpen := .invalidGitRepository
  , archMd := some content3 }

/-- An otherwise loadable project whose `guidance.toml` is present but
malformed: `toml.load` raises. -/
def fs4 : ProjectFs :=
  { pathExists := true, archDirExists := true, archHasEntries := true
  , guidanceFile := some (.raise "toml decode error")
  , gitOpen := .invalidGitRepository, archMd := some content3 }

/-- An otherwise loadable project where reading the working copy fails
with an exception other than `git.InvalidGitRepositoryError`
(permission denial while reading the git metadata). -/
def fs5 : ProjectFs :=
  { pathExists := true, archDirExists := true, archHasEntries := true
  , guidanceFile := none, gitOpen := .otherError "permission denied"
  , archMd := some content3 }

/-! ## Sanity checks of the scanner semantics -/

example :
    scanComponents "## Component: Parser\n## Component: Linker\n".toList
      = ["Parser".toList, "Linker".toList] := by decide

example :
    parse_components "## Component: My Comp".toList
      = [{ name := "My", status := .implemented }] := by decide

example :
    parse_components "## Component: A\n## Component: A\n".toList
      = [{ name := "A", status := .implemented },
         { name := "A", status := .implemented }] := by decide

example : parse_components "## Component:X\nno heading here".toList = [] := by decide

example : parse_components "".toList = [] := by decide

/-! ## Lemmas about the component scanner -/

/-- One unfolding step of the fuel-indexed scanner on a non-empty input. -/
lemma scanGo_pos (fuel : Nat) (l : List Char) (h : l ≠ []) :
    scanGo (fuel + 1) l =
      if pat.isPrefixOf l && wordHead (l.drop pat.length) then
        (l.drop pat.length).takeWhile wordChar ::
          scanGo fuel
            ((l.drop pat.length).drop ((l.drop pat.length).takeWhile wordChar).length)
      else scanGo fuel l.tail := by
  cases l with
  | nil => exact absurd rfl h
  | cons c cs => rfl

/-- The scanner's result does not depend on the fuel, as long as the
fuel covers the length of the input. -/
lemma scanGo_congr :
    ∀ (f₁ : Nat) (l : List Char) (f₂ : Nat),
      l.length ≤ f₁ → l.length ≤ f₂ → scanGo f₁ l = scanGo f₂ l := by
  intro f₁
  induction f₁ with
  | zero =>
      intro l f₂ h₁ _
      have hl : l = [] := List.eq_nil_of_length_eq_zero (Nat.le_zero.mp h₁)
      subst hl
      cases f₂ <;> rfl
  | succ f ih =>
      intro l f₂ h₁ h₂
      cases l with
      | nil => cases f₂ <;> rfl
      | cons c cs =>
          cases f₂ with
          | zero => simp at h₂
          | succ f₂ =>
              have hp : pat.length = 14 := rfl
              rw [scanGo_pos f _ (List.cons_ne_nil c cs),
                  scanGo_pos f₂ _ (List.cons_ne_nil c cs)]
              by_cases hcond :
                  (pat.isPrefixOf (c :: cs) && wordHead ((c :: cs).drop pat.length)) = true
              · rw [if_pos hcond, if_pos hcond]
                congr 1
                apply ih
                · simp only [List.length_drop, List.length_cons] at *
                  omega
                · simp only [List.length_drop, List.length_cons] at *
                  omega
              · rw [if_neg hcond, if_neg hcond]
                apply ih
                · exact Nat.le_of_succ_le_succ h₁
                · exact Nat.le_of_succ_le_succ h₂

/-- A position at which the pattern does not match is skipped. -/
lemma scanComponents_skip (c : Char) (cs : List Char)
    (h : (pat.isPrefixOf (c :: cs) && wordHead ((c :: cs).drop pat.length)) = false) :
    scanComponents (c :: cs) = scanComponents cs := by
  unfold scanComponents
  simp only [List.length_cons]
  rw [scanGo_pos _ _ (List.cons_ne_nil c cs), if_neg (by simp [h]), List.tail_cons]

/-- `takeWhile` on a word run followed by a non-word continuation
captures exactly the word run. -/
lemma takeWhile_word (name rest : List Char)
    (hw : ∀ c ∈ name, wordChar c = true) (hrest : wordHead rest = false) :
    (name ++ rest).takeWhile wordChar = name := by
  induction name with
  | nil =>
      cases rest with
      | nil => rfl
      | cons r rs =>
          simp only [wordHead] at hrest
          simp [List.takeWhile_cons, hrest]
  | cons n ns ih =>
      have hn : wordChar n = true := hw n (List.mem_cons_self n ns)
      simp only [List.cons_append, List.takeWhile_cons, hn, if_true]
      rw [ih fun c hc => hw c (List.mem_cons_of_mem n hc)]

/-- A match of the pattern at the head of the document: the literal
`"## Component: "` followed by a non-empty word run `name` and a
continuation that does not begin with a word character captures
exactly `name`, and scanning resumes on the continuation. -/
lemma scanComponents_match (name rest : List Char)
    (hw : ∀ c ∈ name, wordChar c = true) (hne : name ≠ [])
    (hrest : wordHead rest = false) :
    scanComponents (pat ++ name ++ rest) = name :: scanComponents rest := by
  have hp : pat.length = 14 := rfl
  have hassoc : pat ++ name ++ rest = pat ++ (name ++ rest) := by
    rw [List.append_assoc]
  have hdrop : (pat ++ (name ++ rest)).drop pat.length = name ++ rest :=
    List.drop_left _ _
  have hpre : pat.isPrefixOf (pat ++ (name ++ rest)) = true := by
    simp
  have hword : wordHead (name ++ rest) = true := by
    cases name with
    | nil => exact absurd rfl hne
    | cons n ns =>
        simpa [wordHead] using hw n (List.mem_cons_self n ns)
  have htake : (name ++ rest).takeWhile wordChar = name :=
    takeWhile_word name rest hw hrest
  have hdropname : (name ++ rest).drop name.length = rest := List.drop_left _ _
  rw [hassoc]
  have hlen : (pat ++ (name ++ rest)).length = 13 + name.length + rest.length + 1 := by
    simp only [List.length_append, hp]
    omega
  unfold scanComponents
  rw [hlen]
  rw [scanGo_pos _ _ (by simp [pat])]
  rw [if_pos (by rw [hdrop]; simp [hpre, hword])]
  rw [hdrop, htake, hdropname]
  congr 1
  exact scanGo_congr _ rest _ (by omega) (Nat.le_refl _)

/-- Every name produced by the scanner is a non-empty run of word
characters. -/
lemma scanGo_names_word :
    ∀ (fuel : Nat) (l : List Char) (n : List Char), n ∈ scanGo fuel l →
      n ≠ [] ∧ ∀ c ∈ n, wordChar c = true := by
  intro fuel
  induction fuel with
  | zero => intro l n hn; simp [scanGo] at hn
  | succ f ih =>
      intro l n hn
      cases l with
      | nil => simp [scanGo] at hn
      | cons c cs =>
          rw [scanGo_pos _ _ (List.cons_ne_nil c cs)] at hn
          by_cases hcond :
              (pat.isPrefixOf (c :: cs) && wordHead ((c :: cs).drop pat.length)) = true
          · rw [if_pos hcond] at hn
            rcases List.mem_cons.mp hn with h | h
            · subst h
              constructor
              · have hwh : wordHead ((c :: cs).drop pat.length) = true :=
                  (Bool.and_eq_true .. ▸ hcond).2
                cases hrest : (c :: cs).drop pat.length with
                | nil => rw [hrest] at hwh; simp [wordHead] at hwh
                | cons d ds =>
                    rw [hrest] at hwh
                    simp only [wordHead] at hwh
                    simp [List.takeWhile_cons, hwh]
              · intro ch hch
                exact List.mem_takeWhile_imp hch
            · exact ih _ n h
          · rw [if_neg hcond] at hn
            exact ih _ n hn

/-! ## Claims -/

/-- C1: `parse_components` returns, in document order, one component per
substring matching `## Component: <identifier>` with `<identifier>` a
contiguous run of word characters; every returned component has status
`Implemented` and a name that is a non-empty run of word characters
(so no heading whose name contains a space or punctuation character is
matched in full); a match at the head of the document captures exactly
the word run and scanning continues on the remainder, so matches are
produced in document order and duplicate headings yield duplicate
entries, as the concrete duplicated document shows. -/
theorem C1_component_scan
    (content name rest : List Char)
    (hw : ∀ c ∈ name, wordChar c = true) (hne : name ≠ [])
    (hrest : wordHead rest = false) :
    (∀ comp ∈ parse_components content,
        comp.status = .implemented ∧
        comp.name.toList ≠ [] ∧ ∀ c ∈ comp.name.toList, wordChar c = true) ∧
    (parse_components (pat ++ name ++ rest) =
      { name := String.mk name, status := .implemented } :: parse_components rest) ∧
    parse_components "## Component: A\n## Component: A".toList =
      [{ name := "A", status := .implemented },
       { name := "A", status := .implemented }] := by
  refine ⟨?_, ?_, by decide⟩
  · intro comp hcomp
    unfold parse_components scanComponents at hcomp
    simp only [List.mem_map] at hcomp
    obtain ⟨n, hn, rfl⟩ := hcomp
    obtain ⟨hne', hword⟩ := scanGo_names_word content.length content n hn
    exact ⟨rfl, hne', hword⟩
  · unfold parse_components
    rw [scanComponents_match name rest hw hne hrest, List.map_cons]

/-- Witness for C1 at a concrete heading. -/
theorem C1_component_scan_witness :
    parse_components (pat ++ "Parser".toList ++ ['\n']) =
      { name := "Parser", status := .implemented } :: parse_components ['\n'] :=
  (C1_component_scan [] "Parser".toList ['\n']
    (by decide) (by decide) (by decide)).2.1

/-- C2: if the project path exists but the `architecture` subdirectory
is missing or empty, `load_project` reports the project as not usable
and returns `False` with the session state unchanged (in particular
`project_path` is not set); conversely `load_project` returns `True`
only if `architecture/` exists and has at least one entry. -/
theorem C2_validation_blocks_open (fs : ProjectFs) (path : String) (st : SessionState) :
    (fs.pathExists = true →
      fs.archDirExists = false ∨ fs.archHasEntries = false →
      load_project fs path st =
        (false, st,
         [.error "No architecture files found. Please initialize project first."])) ∧
    ((load_project fs path st).1 = true →
      fs.archDirExists = true ∧ fs.archHasEntries = true) := by
  rcases fs with ⟨pe, ad, ah, gf, go, md⟩
  cases pe <;> cases ad <;> cases ah <;>
    rcases gf with _ | (g | m) <;> rcases go with r | _ | m2 <;>
      simp [load_project, load_project.loadGit]

/-- Witness for C2: an existing path with an empty `architecture/`. -/
theorem C2_validation_blocks_open_witness :
    load_project
        { pathExists := true, archDirExists := true, archHasEntries := false
        , guidanceFile := none, gitOpen := .invalidGitRepository, archMd := none }
        "/proj" initState =
      (false, initState,
       [.error "No architecture files found. Please initialize project first."]) :=
  (C2_validation_blocks_open _ "/proj" initState).1 rfl (Or.inr rfl)

/-- C3: opening the end-to-end scenario's directory succeeds
(`load_project` returns `True`, sets `project_path`, and surfaces the
`Unbound`-derived git warning), and the parsed components are exactly
`[Parser: Implemented, Linker: Implemented]` in that order. -/
theorem C3_end_to_end :
    load_project fs3 "/proj" initState =
      (true, { initState with project_path := some "/proj" },
       [.warning "Git repository not initialized"]) ∧
    parse_components content3 =
      [{ name := "Parser", status := .implemented },
       { name := "Linker", status := .implemented }] ∧
    show_components fs3 =
      .components [{ name := "Parser", status := .implemented },
                   { name := "Linker", status := .implemented }] := by
  refine ⟨rfl, by decide, by decide⟩

/-- C4 counterexample: on an existing path that passes architecture
validation but whose `guidance.toml` is malformed, opening does NOT
succeed — `load_project` returns `False` and `project_path` stays
unset, because the exception raised by `toml.load` is caught by the
function's outer generic handler. -/
theorem C4_counterexample :
    ¬ ((load_project fs4 "/proj" initState).1 = true ∧
       (load_project fs4 "/proj" initState).2.1.project_path = some "/proj") := by
  decide

/-- C4 amended: for every path that exists and passes architecture
validation, a malformed `guidance.toml` makes the open FAIL —
the `toml.load` exception is caught by the generic `except Exception`
handler, which reports `"Failed to load project: ..."` and returns
`False` with the session state unchanged. -/
theorem C4_amended_malformed_guidance_blocks
    (fs : ProjectFs) (path : String) (st : SessionState) (msg : String)
    (hex : fs.pathExists = true) (had : fs.archDirExists = true)
    (hae : fs.archHasEntries = true)
    (hg : fs.guidanceFile = some (.raise msg)) :
    load_project fs path st =
      (false, st, [.error ("Failed to load project: " ++ msg)]) := by
  rcases fs with ⟨pe, ad, ah, gf, go, md⟩
  simp only at hex had hae hg
  subst hex had hae hg
  simp [load_project]

/-- Witness for C4's amended claim at the concrete environment. -/
theorem C4_amended_witness :
    load_project fs4 "/proj" initState =
      (false, initState, [.error "Failed to load project: toml decode error"]) :=
  C4_amended_malformed_guidance_blocks fs4 "/proj" initState
    "toml decode error" rfl rfl rfl rfl

/-- C5 counterexample: a failure of the version-control binding other
than the absence of a repository (here: permission denial) does NOT
degrade to a warning — `load_project` returns `False`, so the open
fails, contrary to the claim. -/
theorem C5_counterexample :
    ¬ ((load_project fs5 "/proj" initState).1 = true) := by decide

/-- C5 amended: on a path that exists and passes architecture
validation (and whose guidance file, if present, parses), only
`git.InvalidGitRepositoryError` — the mere absence of a repository —
degrades to the `Unbound` warning with the open still succeeding; any
other exception raised while reading the working copy is caught by the
generic handler and the open fails with an error. -/
theorem C5_amended_git_failure_blocks
    (fs : ProjectFs) (path : String) (st : SessionState)
    (hex : fs.pathExists = true) (had : fs.archDirExists = true)
    (hae : fs.archHasEntries = true)
    (hg : fs.guidanceFile = none ∨ ∃ g, fs.guidanceFile = some (.ok g)) :
    (fs.gitOpen = .invalidGitRepository →
      (load_project fs path st).1 = true ∧
      (load_project fs path st).2.2 = [.warning "Git repository not initialized"] ∧
      (load_project fs path st).2.1.git_repo = st.git_repo) ∧
    (∀ m, fs.gitOpen = .otherError m →
      (load_project fs path st).1 = false ∧
      (load_project fs path st).2.2 = [.error ("Failed to load project: " ++ m)] ∧
      (load_project fs path st).2.1.project_path = st.project_path) := by
  rcases fs with ⟨pe, ad, ah, gf, go, md⟩
  simp only at hex had hae hg
  subst hex had hae
  rcases hg with hg | ⟨g, hg⟩ <;> subst hg <;>
    rcases go with r | _ | m2 <;>
      simp [load_project, load_project.loadGit]

/-- Witness for C5's amended claim at the concrete environment. -/
theorem C5_amended_witness :
    (load_project fs5 "/proj" initState).1 = false ∧
    (load_project fs5 "/proj" initState).2.2 =
      [.error "Failed to load project: permission denied"] ∧
    (load_project fs5 "/proj" initState).2.1.project_path = none :=
  ((C5_amended_git_failure_blocks fs5 "/proj" initState rfl rfl rfl
      (Or.inl rfl)).2) "permission denied" rfl

/-- C6 counterexample: a path that exists, passes architecture
validation and has no version-control metadata, yet whose open FAILS:
its malformed `guidance.toml` aborts `load_project` before the git
binding is even attempted, so `load_project` returns `False` and no
warning is surfaced — contrary to the claim that opening such a path
always succeeds. -/
theorem C6_counterexample :
    ¬ ((load_project fs4 "/proj" initState).1 = true) := by decide

/-- C6 amended: for every path that exists and passes architecture
validation, has no version-control metadata (`git.Repo` raises
`InvalidGitRepositoryError`), and whose guidance file — if present —
parses successfully, the binding degrades to the unbound outcome: a
non-fatal warning is surfaced, `git_repo` is left untouched, and the
open still succeeds with `project_path` set. -/
theorem C6_amended_unbound_warning
    (fs : ProjectFs) (path : String) (st : SessionState)
    (hex : fs.pathExists = true) (had : fs.archDirExists = true)
    (hae : fs.archHasEntries = true)
    (hg : fs.guidanceFile = none ∨ ∃ g, fs.guidanceFile = some (.ok g))
    (hgit : fs.gitOpen = .invalidGitRepository) :
    (load_project fs path st).1 = true ∧
    (load_project fs path st).2.2 = [.warning "Git repository not initialized"] ∧
    (load_project fs path st).2.1.project_path = some path ∧
    (load_project fs path st).2.1.git_repo = st.git_repo := by
  rcases fs with ⟨pe, ad, ah, gf, go, md⟩
  simp only at hex had hae hg hgit
  subst hex had hae hgit
  rcases hg with hg | ⟨g, hg⟩ <;> subst hg <;>
    simp [load_project, load_project.loadGit]

/-- Witness for C6's amended claim at the concrete environment. -/
theorem C6_amended_witness :
    (load_project fs3 "/proj" initState).1 = true ∧
    (load_project fs3 "/proj" initState).2.2 =
      [.warning "Git repository not initialized"] ∧
    (load_project fs3 "/proj" initState).2.1.project_path = some "/proj" ∧
    (load_project fs3 "/proj" initState).2.1.git_repo = none :=
  C6_amended_unbound_warning fs3 "/proj" initState rfl rfl rfl (Or.inl rfl) rfl

/-- C7: when `Architecture.md` exists but contains no matching heading,
`show_components` renders the informational no-components outcome (the
parse yields an empty sequence, not an error); when the file is
absent, it renders the document-not-found error outcome. -/
theorem C7_show_components_outcomes (fs : ProjectFs) (content : List Char) :
    (fs.archMd = some content → parse_components content = [] →
      show_components fs = .noComponents) ∧
    (fs.archMd = none → show_components fs = .documentNotFound) := by
  constructor
  · intro hmd hparse
    simp [show_components, hmd, hparse]
  · intro hmd
    simp [show_components, hmd]

/-- Witness for C7 at concrete environments: a document with headings
that match nothing, and an absent document. -/
theorem C7_show_components_outcomes_witness :
    show_components { fs3 with archMd := some "# Component: nope\nplain text".toList }
        = .noComponents ∧
    show_components { fs3 with archMd := none } = .documentNotFound :=
  ⟨(C7_show_components_outcomes _ "# Component: nope\nplain text".toList).1
      rfl (by decide),
   (C7_show_components_outcomes { fs3 with archMd := none } []).2 rfl⟩

/-- C10: `load_project` always returns a boolean (the embedding is a
total function: every exception the source can raise is caught by its
own handler or the outer one, each returning `False`); it sets
`project_path` to its argument exactly when it returns `True`; on
every `False` return, `project_path` retains its prior value; and the
`components` and `selected_component` fields are never touched
(only `guidance` and `git_repo` may be mutated on a failing call). -/
theorem C10_load_project_frame (fs : ProjectFs) (path : String) (st : SessionState) :
    ((load_project fs path st).1 = true →
      (load_project fs path st).2.1.project_path = some path) ∧
    ((load_project fs path st).1 = false →
      (load_project fs path st).2.1.project_path = st.project_path) ∧
    (load_project fs path st).2.1.components = st.components ∧
    (load_project fs path st).2.1.selected_component = st.selected_component := by
  rcases fs with ⟨pe, ad, ah, gf, go, md⟩
  cases pe <;> cases ad <;> cases ah <;>
    rcases gf with _ | (g | m) <;> rcases go with r | _ | m2 <;>
      simp [load_project, load_project.loadGit]

/-- Witness for C10 on a succeeding and a failing call. -/
theorem C10_load_project_frame_witness :
    (load_project fs3 "/proj" initState).2.1.project_path = some "/proj" ∧
    (load_project fs5 "/proj" initState).2.1.project_path = none :=
  ⟨(C10_load_project_frame fs3 "/proj" initState).1 rfl,
   (C10_load_project_frame fs5 "/proj" initState).2.1 rfl⟩

/-! ## Lemmas about the project store -/

/-- Records whose path differs from `r`'s are unchanged by the upsert map. -/
lemma upsert_map_id (r : ProjectRecord) :
    ∀ (l : List ProjectRecord), (∀ x ∈ l, x.path ≠ r.path) →
      (l.map fun q => if q.path = r.path then r else q) = l := by
  intro l hl
  induction l with
  | nil => rfl
  | cons q l' ih =>
      have hq : q.path ≠ r.path := hl q (List.mem_cons_self q l')
      simp only [List.map_cons, if_neg hq, List.cons.injEq, true_and]
      exact ih fun x hx => hl x (List.mem_cons_of_mem q hx)

/-- In a well-formed store, saving `r` leaves exactly one copy of `r`
in the listing. -/
lemma save_count_one (r : ProjectRecord) :
    ∀ (s : ProjectStore), s.wf → ((s.save r).list.count r = 1) := by
  intro s
  induction s with
  | nil => intro _; simp [ProjectStore.save, ProjectStore.list]
  | cons q s' ih =>
      intro h
      rw [ProjectStore.wf, List.map_cons, List.nodup_cons] at h
      obtain ⟨hq, hs'⟩ := h
      by_cases hqr : q.path = r.path
      · have hrnotin : ∀ x ∈ s', x.path ≠ r.path := by
          intro x hx hxr
          exact hq (by rw [hqr, ← hxr]; exact List.mem_map_of_mem _ hx)
        have hsave : ProjectStore.save (q :: s') r = r :: s' := by
          unfold ProjectStore.save
          rw [if_pos (by simp [List.any_cons, hqr]),
              List.map_cons, if_pos hqr, upsert_map_id r s' hrnotin]
        rw [hsave, ProjectStore.list, List.count_cons_self]
        have h0 : s'.count r = 0 := by
          rw [List.count_eq_zero]
          intro hmem
          exact hrnotin r hmem rfl
        omega
      · by_cases hany : s'.any (fun x => x.path = r.path) = true
        · have hsave : ProjectStore.save (q :: s') r = q :: ProjectStore.save s' r := by
            unfold ProjectStore.save
            rw [if_pos (by simp [List.any_cons, hany]), if_pos hany,
                List.map_cons, if_neg hqr]
          have hqner : r ≠ q := fun hrq => hqr (by rw [hrq])
          rw [hsave, ProjectStore.list, List.count_cons_of_ne hqner]
          exact ih hs'
        · have hsave : ProjectStore.save (q :: s') r = (q :: s') ++ [r] := by
            unfold ProjectStore.save
            rw [if_neg (by simp [List.any_cons, hqr]; simpa using hany)]
          rw [hsave, ProjectStore.list, List.count_append]
          have h1 : (q :: s').count r = 0 := by
            rw [List.count_eq_zero]
            intro hmem
            rcases List.mem_cons.mp hmem with hrq | hmem'
            · exact hqr (by rw [hrq])
            · exact hany (List.any_eq_true.mpr ⟨r, hmem', by simp⟩)
          rw [h1]
          simp

/-- `save` preserves well-formedness of the store. -/
lemma save_wf (s : ProjectStore) (r : ProjectRecord) (h : s.wf) :
    (s.save r).wf := by
  unfold ProjectStore.save
  by_cases hany : s.any (fun q => q.path = r.path) = true
  · rw [if_pos hany]
    unfold ProjectStore.wf at h ⊢
    have hmap : ((s.map fun q => if q.path = r.path then r else q).map
        ProjectRecord.path) = s.map ProjectRecord.path := by
      rw [List.map_map]
      apply List.map_congr_left
      intro x _
      by_cases hxr : x.path = r.path
      · simp [Function.comp, hxr]
      · simp [Function.comp, hxr]
    rw [hmap]
    exact h
  · rw [if_neg hany]
    unfold ProjectStore.wf at h ⊢
    rw [List.map_append, List.nodup_append]
    refine ⟨h, List.nodup_singleton _, ?_⟩
    intro a ha hb
    simp only [List.map_cons, List.map_nil, List.mem_singleton] at hb
    subst hb
    obtain ⟨x, hx, hxp⟩ := List.mem_map.mp ha
    exact hany (List.any_eq_true.mpr ⟨x, hx, by simp [hxp]⟩)

/-- C8 (store modelled from the spec): in a well-formed store, `save`
followed by `list` yields the saved record exactly once with all
fields unchanged (counting occurrences of the exact record), re-saving
the identical record still lists it exactly once (the upsert keyed by
`path` does not duplicate), and well-formedness is preserved. -/
theorem C8_store_save_list_roundtrip (s : ProjectStore) (r : ProjectRecord)
    (h : s.wf) :
    ((s.save r).list.count r = 1) ∧
    (((s.save r).save r).list.count r = 1) ∧
    (s.save r).wf := by
  exact ⟨save_count_one r s h, save_count_one r _ (save_wf s r h), save_wf s r h⟩

/-- Witness for C8 on the empty store and a concrete record. -/
theorem C8_store_save_list_roundtrip_witness :
    ((ProjectStore.empty.save
        { name := "demo", path := "/p", description := "d", metadata := [] }).list.count
      { name := "demo", path := "/p", description := "d", metadata := [] } = 1) ∧
    (((ProjectStore.empty.save
        { name := "demo", path := "/p", description := "d", metadata := [] }).save
        { name := "demo", path := "/p", description := "d", metadata := [] }).list.count
      { name := "demo", path := "/p", description := "d", metadata := [] } = 1) ∧
    (ProjectStore.empty.save
        { name := "demo", path := "/p", description := "d", metadata := [] }).wf :=
  C8_store_save_list_roundtrip ProjectStore.empty
    { name := "demo", path := "/p", description := "d", metadata := [] }
    (by simp [ProjectStore.wf, ProjectStore.empty])

/-- C9: submitting the new-project form with an empty required name or
path field only surfaces the inline error message — no directory is
created, no git repository is initialized, and no record is saved. -/
theorem C9_missing_required_field_no_mutation
    (env : CreateEnv) (name description path : String)
    (init_git create_arch : Bool)
    (h : name = "" ∨ path = "") :
    create_project env name description path init_git create_arch =
      (CreateEffects.none, [.error "Please provide project name and path"]) := by
  unfold create_project
  rcases h with h | h <;> subst h <;> simp

/-- Witness for C9 with an empty name field. -/
theorem C9_missing_required_field_no_mutation_witness :
    create_project
        { mkdirResult := .ok (), gitInitResult := .ok { id := 0 }
        , saveResult := .ok true }
        "" "desc" "/p" true true =
      (CreateEffects.none, [.error "Please provide project name and path"]) :=
  C9_missing_required_field_no_mutation _ "" "desc" "/p" true true (Or.inl rfl)

end SparcGui
